import Mathlib

/-!
Verification of the session registry and action layer of
`selenium-mcp-appstore` (`src/mcp_server_v2.py` and `src/selenium_tools.py`).

Shallow embedding conventions:
  * timestamps (`time.time()`) are modelled as integers supplied by the
    caller of each operation (the clock is an external collaborator);
  * `uuid.uuid4()` draws are modelled as strings supplied to `create`
    (the id source is an external collaborator);
  * the browser driver is an opaque handle (a `Nat` tag); whether a call
    such as `driver.quit()` raises, or whether a CSS wait succeeds within
    its bound, is an oracle parameter;
  * a Python `dict` is an association list with first-match lookup,
    in-place update and insertion-order append — the invariant that its
    keys are duplicate-free is carried as a hypothesis where needed;
  * Python exceptions are values of `PyError`; a function either returns
    a payload or lets an exception propagate (`PyResult.raised`).
-/

namespace SeleniumMcp

/-- Timestamps as returned by the clock (`time.time()`). -/
abbrev Time := Int

/-- `_Session` dataclass of `mcp_server_v2.py`: a driver handle plus the
two bookkeeping timestamps. -/
structure Session where
  driver : Nat
  created_at : Time
  last_used_at : Time
deriving DecidableEq, Repr

/-- The `_SessionManager._sessions` dict: session id to `_Session`,
kept in insertion order like a Python dict. -/
abbrev Registry := List (String × Session)

/-- The keys of the registry map. -/
def keys (m : Registry) : List String := m.map Prod.fst

@[simp]
theorem keys_nil : keys [] = [] := rfl

@[simp]
theorem keys_cons (p : String × Session) (m : Registry) :
    keys (p :: m) = p.1 :: keys m := rfl

theorem keys_append (m m' : Registry) :
    keys (m ++ m') = keys m ++ keys m' := by
  simp [keys]

/-- Python dict lookup `m[k]` / `k in m`: first (unique) match. -/
def dictLookup : Registry → String → Option Session
  | [], _ => none
  | (k, v) :: rest, sid => if k = sid then some v else dictLookup rest sid

/-- Python dict assignment `m[k] = v`: update in place when the key is
present, append otherwise. -/
def dictInsert : Registry → String → Session → Registry
  | [], sid, s => [(sid, s)]
  | (k, v) :: rest, sid, s =>
      if k = sid then (k, s) :: rest else (k, v) :: dictInsert rest sid s

/-- Python `m.pop(k, None)`: the popped value (if any) and the remaining
dict. -/
def dictPop : Registry → String → Option Session × Registry
  | [], _ => (none, [])
  | (k, v) :: rest, sid =>
      if k = sid then (some v, rest)
      else ((dictPop rest sid).1, (k, v) :: (dictPop rest sid).2)

/-- The exception universe of the program.  `keyError` is raised by
`_SessionManager.get` on an unknown id, `timeoutException` by
`WebDriverWait.until` when the wait expires (it does not carry the
selector), `webDriverException` by `webdriver.Chrome(...)` when driver
construction fails.  `resourceExhausted` and `backendUnavailable` are the
typed creation-failure errors named by the spec; no code in `src/` ever
constructs them. -/
inductive PyError
  | keyError (msg : String)
  | timeoutException
  | webDriverException (msg : String)
  | resourceExhausted
  | backendUnavailable
deriving DecidableEq, Repr

/-- Outcome of a tool-level call: either a returned payload, or a Python
exception propagating out of the function. -/
inductive PyResult (α : Type)
  | ok (payload : α)
  | raised (e : PyError)
deriving DecidableEq, Repr

section DictLemmas

theorem mem_keys_of_mem {m : Registry} {p : String × Session}
    (h : p ∈ m) : p.1 ∈ keys m :=
  List.mem_map_of_mem Prod.fst h

theorem exists_of_mem_keys {m : Registry} {x : String}
    (h : x ∈ keys m) : ∃ s, (x, s) ∈ m := by
  induction m with
  | nil => simp at h
  | cons p rest ih =>
    obtain ⟨k, v⟩ := p
    rw [keys_cons] at h
    rcases List.mem_cons.mp h with h1 | h1
    · exact ⟨v, h1 ▸ List.mem_cons_self _ _⟩
    · obtain ⟨s, hs⟩ := ih h1
      exact ⟨s, List.mem_cons_of_mem _ hs⟩

theorem dictLookup_eq_none_iff (m : Registry) (k : String) :
    dictLookup m k = none ↔ k ∉ keys m := by
  induction m with
  | nil => simp [dictLookup]
  | cons p rest ih =>
    obtain ⟨k', v⟩ := p
    by_cases h : k' = k
    · subst h
      simp [dictLookup]
    · have h2 : k ≠ k' := fun he => h he.symm
      simp [dictLookup, h, ih, h2]

theorem mem_of_dictLookup {m : Registry} {k : String} {s : Session}
    (h : dictLookup m k = some s) : (k, s) ∈ m := by
  induction m with
  | nil => simp [dictLookup] at h
  | cons p rest ih =>
    obtain ⟨k', v⟩ := p
    by_cases hk : k' = k
    · subst hk
      simp [dictLookup] at h
      subst h
      exact List.mem_cons_self _ _
    · simp only [dictLookup, if_neg hk] at h
      exact List.mem_cons_of_mem _ (ih h)

theorem mem_keys_of_dictLookup {m : Registry} {k : String} {s : Session}
    (h : dictLookup m k = some s) : k ∈ keys m :=
  mem_keys_of_mem (mem_of_dictLookup h)

theorem dictLookup_of_mem_nodup {m : Registry} {k : String} {s : Session}
    (hnd : (keys m).Nodup) (h : (k, s) ∈ m) : dictLookup m k = some s := by
  induction m with
  | nil => simp at h
  | cons p rest ih =>
    obtain ⟨k', v⟩ := p
    rw [keys_cons, List.nodup_cons] at hnd
    rcases List.mem_cons.mp h with h1 | h1
    · obtain ⟨h2, h3⟩ := Prod.mk.injEq .. ▸ h1
      simp [dictLookup, h2.symm, h3]
    · have hk : k' ≠ k := by
        intro he
        subst he
        exact hnd.1 (show k' ∈ keys rest from mem_keys_of_mem h1)
      simp only [dictLookup, if_neg hk]
      exact ih hnd.2 h1

theorem key_inj_of_nodup {m : Registry} {p q : String × Session}
    (hnd : (keys m).Nodup) (hp : p ∈ m) (hq : q ∈ m) (h : p.1 = q.1) :
    p = q := by
  obtain ⟨kp, sp⟩ := p
  obtain ⟨kq, sq⟩ := q
  simp only at h
  subst h
  have h1 := dictLookup_of_mem_nodup hnd hp
  have h2 := dictLookup_of_mem_nodup hnd hq
  rw [h1] at h2
  simp only [Option.some.injEq] at h2
  simp [h2]

theorem dictLookup_dictInsert_self (m : Registry) (k : String) (v : Session) :
    dictLookup (dictInsert m k v) k = some v := by
  induction m with
  | nil => simp [dictInsert, dictLookup]
  | cons p rest ih =>
    obtain ⟨k', v'⟩ := p
    by_cases h : k' = k <;> simp [dictInsert, dictLookup, h, ih]

theorem dictLookup_dictInsert_ne (m : Registry) {k k' : String} (v : Session)
    (h : k' ≠ k) : dictLookup (dictInsert m k v) k' = dictLookup m k' := by
  have h2 : k ≠ k' := fun he => h he.symm
  induction m with
  | nil => simp [dictInsert, dictLookup, h2]
  | cons p rest ih =>
    obtain ⟨k0, v0⟩ := p
    by_cases h0 : k0 = k
    · subst h0
      simp [dictInsert, dictLookup, h2, h]
    · by_cases h1 : k0 = k' <;> simp [dictInsert, dictLookup, h0, h1, ih, h, h2]

theorem keys_dictInsert_of_mem {m : Registry} {k : String} (v : Session)
    (h : k ∈ keys m) : keys (dictInsert m k v) = keys m := by
  induction m with
  | nil => simp at h
  | cons p rest ih =>
    obtain ⟨k', v'⟩ := p
    by_cases hk : k' = k
    · simp [dictInsert, hk]
    · rw [keys_cons] at h
      rcases List.mem_cons.mp h with h1 | h1
      · exact absurd h1.symm hk
      · simp [dictInsert, hk, ih h1]

theorem dictInsert_of_not_mem {m : Registry} {k : String} (v : Session)
    (h : k ∉ keys m) : dictInsert m k v = m ++ [(k, v)] := by
  induction m with
  | nil => simp [dictInsert]
  | cons p rest ih =>
    obtain ⟨k', v'⟩ := p
    rw [keys_cons] at h
    have h1 : k ∉ keys rest := fun hm => h (List.mem_cons_of_mem _ hm)
    have h3 : k' ≠ k := fun he => h (he ▸ List.mem_cons_self _ _)
    simp [dictInsert, h3, ih h1]

theorem mem_keys_dictInsert {m : Registry} {k x : String} {v : Session}
    (h : x ∈ keys (dictInsert m k v)) : x = k ∨ x ∈ keys m := by
  induction m with
  | nil =>
    simp [dictInsert] at h
    exact Or.inl h
  | cons p rest ih =>
    obtain ⟨k', v'⟩ := p
    by_cases hk : k' = k
    · subst hk
      simp only [dictInsert, if_pos rfl, keys_cons] at h
      rcases List.mem_cons.mp h with h1 | h1
      · exact Or.inl h1
      · exact Or.inr (List.mem_cons_of_mem _ h1)
    · simp only [dictInsert, if_neg hk, keys_cons] at h ⊢
      rcases List.mem_cons.mp h with h1 | h1
      · exact Or.inr (h1 ▸ List.mem_cons_self _ _)
      · rcases ih h1 with h2 | h2
        · exact Or.inl h2
        · exact Or.inr (List.mem_cons_of_mem _ h2)

theorem nodup_keys_dictInsert {m : Registry} (k : String) (v : Session)
    (hnd : (keys m).Nodup) : (keys (dictInsert m k v)).Nodup := by
  by_cases h : k ∈ keys m
  · rw [keys_dictInsert_of_mem v h]
    exact hnd
  · rw [dictInsert_of_not_mem v h, keys_append]
    refine List.Nodup.append hnd (List.nodup_singleton k) ?_
    intro a ha hb
    simp only [keys_cons, keys_nil, List.mem_singleton] at hb
    subst hb
    exact h ha

theorem dictPop_fst (m : Registry) (k : String) :
    (dictPop m k).1 = dictLookup m k := by
  induction m with
  | nil => simp [dictPop, dictLookup]
  | cons p rest ih =>
    obtain ⟨k', v⟩ := p
    by_cases h : k' = k <;> simp [dictPop, dictLookup, h, ih]

theorem dictPop_snd_of_nodup {m : Registry} (k : String)
    (hnd : (keys m).Nodup) :
    (dictPop m k).2 = m.filter (fun p => decide (p.1 ≠ k)) := by
  induction m with
  | nil => simp [dictPop]
  | cons p rest ih =>
    obtain ⟨k', v⟩ := p
    rw [keys_cons, List.nodup_cons] at hnd
    by_cases h : k' = k
    · subst h
      have hrest : List.filter (fun p => !decide (p.1 = k')) rest = rest := by
        apply List.filter_eq_self.mpr
        intro q hq
        simp only [Bool.not_eq_true', decide_eq_false_iff_not]
        intro he
        exact hnd.1 (show k' ∈ keys rest from he ▸ mem_keys_of_mem hq)
      simp [dictPop, hrest]
    · simp [dictPop, h, ih hnd.2]

theorem mem_keys_dictPop {m : Registry} {k x : String}
    (h : x ∈ keys (dictPop m k).2) : x ∈ keys m := by
  induction m with
  | nil => simp [dictPop] at h
  | cons p rest ih =>
    obtain ⟨k', v⟩ := p
    by_cases hk : k' = k
    · subst hk
      simp [dictPop] at h
      exact List.mem_cons_of_mem _ h
    · simp only [dictPop, if_neg hk, keys_cons] at h
      rw [keys_cons]
      rcases List.mem_cons.mp h with h1 | h1
      · exact List.mem_cons.mpr (Or.inl h1)
      · exact List.mem_cons.mpr (Or.inr (ih h1))

theorem nodup_keys_dictPop {m : Registry} (k : String)
    (hnd : (keys m).Nodup) : (keys (dictPop m k).2).Nodup := by
  rw [dictPop_snd_of_nodup k hnd]
  exact ((List.filter_sublist m).map Prod.fst).nodup hnd

theorem dictLookup_filter_of_keep {m : Registry} {k : String} {s : Session}
    {f : String × Session → Bool} (hnd : (keys m).Nodup)
    (h : dictLookup m k = some s) (hf : f (k, s) = true) :
    dictLookup (m.filter f) k = some s := by
  apply dictLookup_of_mem_nodup
  · exact ((List.filter_sublist m).map Prod.fst).nodup hnd
  · exact List.mem_filter.mpr ⟨mem_of_dictLookup h, hf⟩

theorem dictLookup_filter_of_drop {m : Registry} {k : String} {s : Session}
    {f : String × Session → Bool} (hnd : (keys m).Nodup)
    (h : dictLookup m k = some s) (hf : f (k, s) = false) :
    dictLookup (m.filter f) k = none := by
  rw [dictLookup_eq_none_iff]
  intro hx
  simp only [keys, List.mem_map] at hx
  obtain ⟨p, hp, hpk⟩ := hx
  have hpm := List.mem_filter.mp hp
  have hpe : p = (k, s) :=
    key_inj_of_nodup hnd hpm.1 (mem_of_dictLookup h) (by simpa using hpk)
  rw [hpe, hf] at hpm
  exact absurd hpm.2 (by simp)

end DictLemmas

theorem dictPop_snd_of_absent {m : Registry} {k : String}
    (h : dictLookup m k = none) : (dictPop m k).2 = m := by
  induction m with
  | nil => simp [dictPop]
  | cons p rest ih =>
    obtain ⟨k', v⟩ := p
    by_cases hk : k' = k
    · simp [dictLookup, hk] at h
    · simp only [dictLookup, if_neg hk] at h
      simp [dictPop, hk, ih h]

theorem keys_filter_key (m : Registry) (g : String → Bool) :
    keys (m.filter (fun p => g p.1)) = (keys m).filter g := by
  induction m with
  | nil => simp
  | cons p rest ih =>
    obtain ⟨k, v⟩ := p
    by_cases h : g k <;> simp [List.filter_cons, h, ih]

/-- `_SessionManager.create` (`mcp_server_v2.py` lines 110-119).  The
whole body runs under the lock: draw `sid` (the `uuid.uuid4()` value),
read the clock, construct the driver and insert the new `_Session` with
`created_at = last_used_at = now`, then return the id.  `drv` is the
outcome of `self._new_driver()`: the handle tag it returned, or the
message of the exception `webdriver.Chrome(...)` raised.  When the
constructor raises, the exception propagates unchanged and the dict
assignment never executes. -/
def create (m : Registry) (sid : String) (now : Time)
    (drv : Except String Nat) : Except PyError String × Registry :=
  match drv with
  | .error msg => (.error (.webDriverException msg), m)
  | .ok d => (.ok sid, dictInsert m sid ⟨d, now, now⟩)

/-- `_SessionManager.get` (lines 121-127): under the lock, raise
`KeyError` when the id is unknown; otherwise set the session's
`last_used_at` to the current clock reading and return it.  Lookup and
refresh are a single atomic registry step (one `with self._lock:`
block). -/
def get (m : Registry) (sid : String) (now : Time) :
    Except PyError Session × Registry :=
  match dictLookup m sid with
  | none => (.error (.keyError ("Unknown session_id: " ++ sid)), m)
  | some s =>
      (.ok { s with last_used_at := now },
       dictInsert m sid { s with last_used_at := now })

/-- What `_SessionManager.close` produces: the returned boolean, the
registry afterwards, and whatever exception the call raised to its caller
or recorded anywhere (`none` when the failure vanished silently). -/
structure CloseResult where
  closed : Bool
  registry : Registry
  raisedOrLogged : Option PyError
deriving DecidableEq, Repr

/-- Semantics of the Python block `try: body finally: return True` in
`close` (lines 134-137): whether or not `body` raised, the function
returns `True`, and a `return` inside `finally` discards the in-flight
exception — nothing is re-raised and nothing is logged. -/
def tryFinallyReturnTrue (bodyErr : Option PyError) :
    Bool × Option PyError :=
  match bodyErr with
  | none => (true, none)
  | some _ => (true, none)

/-- `_SessionManager.close` (lines 129-137): pop the entry under the
lock; with no session present return `False`; otherwise run
`s.driver.quit()` inside `try ... finally: return True`.  `q d` is the
exception `quit()` raises on handle `d` (`none` when it succeeds). -/
def close (m : Registry) (sid : String) (q : Nat → Option PyError) :
    CloseResult :=
  match (dictPop m sid).1 with
  | none => ⟨false, (dictPop m sid).2, none⟩
  | some s =>
      ⟨(tryFinallyReturnTrue (q s.driver)).1, (dictPop m sid).2,
       (tryFinallyReturnTrue (q s.driver)).2⟩

/-- The `for sid in to_close` loop of `reap_idle` (lines 147-151): close
each snapshotted id in turn, counting the calls that returned `True`. -/
def closeAll (q : Nat → Option PyError) :
    List String → Nat × Registry → Nat × Registry
  | [], acc => acc
  | sid :: rest, acc =>
      closeAll q rest
        (if (close acc.2 sid q).closed then acc.1 + 1 else acc.1,
         (close acc.2 sid q).registry)

/-- `_SessionManager.reap_idle` (lines 139-151): read the clock once,
snapshot under the lock the ids whose `now - last_used_at` strictly
exceeds `max_idle_seconds`, then close them one by one (each `close`
re-takes the lock) and return how many closes reported `True`. -/
def reapIdle (m : Registry) (now : Time) (maxIdle : Time)
    (q : Nat → Option PyError) : Nat × Registry :=
  closeAll q
    ((m.filter (fun p => decide (now - p.2.last_used_at > maxIdle))).map
      Prod.fst)
    (0, m)

section RegistryLemmas

theorem tryFinallyReturnTrue_eq (e : Option PyError) :
    tryFinallyReturnTrue e = (true, none) := by
  cases e <;> rfl

theorem close_closed (m : Registry) (sid : String) (q : Nat → Option PyError) :
    (close m sid q).closed = (dictLookup m sid).isSome := by
  rw [close, dictPop_fst]
  cases dictLookup m sid <;> simp [tryFinallyReturnTrue_eq]

theorem close_registry (m : Registry) (sid : String) (q : Nat → Option PyError) :
    (close m sid q).registry = (dictPop m sid).2 := by
  rw [close]
  cases (dictPop m sid).1 <;> simp

theorem close_report (m : Registry) (sid : String) (q : Nat → Option PyError) :
    (close m sid q).raisedOrLogged = none := by
  rw [close]
  cases (dictPop m sid).1 <;> simp [tryFinallyReturnTrue_eq]

theorem keys_get_snd (m : Registry) (sid : String) (now : Time) :
    keys (get m sid now).2 = keys m := by
  cases h : dictLookup m sid with
  | none => simp [get, h]
  | some s => simp [get, h, keys_dictInsert_of_mem _ (mem_keys_of_dictLookup h)]

theorem get_of_absent {m : Registry} {sid : String} (now : Time)
    (h : dictLookup m sid = none) :
    get m sid now = (.error (.keyError ("Unknown session_id: " ++ sid)), m) := by
  rw [get, h]

theorem get_of_present {m : Registry} {sid : String} {s : Session} (now : Time)
    (h : dictLookup m sid = some s) :
    get m sid now =
      (.ok { s with last_used_at := now },
       dictInsert m sid { s with last_used_at := now }) := by
  rw [get, h]

end RegistryLemmas

section ReapLemmas

theorem closeAll_spec (q : Nat → Option PyError) (K : List String) :
    ∀ (m : Registry) (c : Nat), (keys m).Nodup → K.Nodup →
      (∀ k ∈ K, k ∈ keys m) →
      closeAll q K (c, m) =
        (c + K.length, m.filter (fun p => decide (p.1 ∉ K))) := by
  induction K with
  | nil =>
    intro m c hnd _ _
    simp [closeAll]
  | cons k K ih =>
    intro m c hnd hK hmem
    rw [List.nodup_cons] at hK
    have hkm : k ∈ keys m := hmem k (List.mem_cons_self _ _)
    have hlk : dictLookup m k ≠ none := fun hc =>
      ((dictLookup_eq_none_iff m k).mp hc) hkm
    have hclosed : (close m k q).closed = true := by
      rw [close_closed]
      cases h : dictLookup m k with
      | none => exact absurd h hlk
      | some s => rfl
    have hreg : (close m k q).registry =
        m.filter (fun p => decide (p.1 ≠ k)) := by
      rw [close_registry, dictPop_snd_of_nodup k hnd]
    have hstep : closeAll q (k :: K) (c, m) =
        closeAll q K (c + 1, m.filter (fun p => decide (p.1 ≠ k))) := by
      rw [closeAll, hclosed, hreg]
      simp
    rw [hstep]
    have hnd' : (keys (m.filter (fun p => decide (p.1 ≠ k)))).Nodup :=
      ((List.filter_sublist m).map Prod.fst).nodup hnd
    have hmem' : ∀ x ∈ K, x ∈ keys (m.filter (fun p => decide (p.1 ≠ k))) := by
      intro x hx
      have hxk : x ≠ k := fun he => hK.1 (he ▸ hx)
      have hxm : x ∈ keys m := hmem x (List.mem_cons_of_mem _ hx)
      obtain ⟨s, hs⟩ := exists_of_mem_keys hxm
      have hpf : (x, s) ∈ m.filter (fun p => decide (p.1 ≠ k)) :=
        List.mem_filter.mpr ⟨hs, by simpa using hxk⟩
      exact mem_keys_of_mem hpf
    rw [ih _ (c + 1) hnd' hK.2 hmem']
    simp only [Prod.mk.injEq]
    refine ⟨by simp [Nat.add_assoc, Nat.add_comm 1 K.length], ?_⟩
    rw [List.filter_filter]
    apply List.filter_congr
    intro p _
    by_cases h1 : p.1 = k <;> by_cases h2 : p.1 ∈ K <;>
      simp [h1, h2, List.mem_cons]

theorem reapIdle_spec (m : Registry) (now maxIdle : Time)
    (q : Nat → Option PyError) (hnd : (keys m).Nodup) :
    reapIdle m now maxIdle q =
      ((m.filter (fun p => decide (now - p.2.last_used_at > maxIdle))).length,
       m.filter (fun p => decide (now - p.2.last_used_at ≤ maxIdle))) := by
  set idle : String × Session → Bool :=
    fun p => decide (now - p.2.last_used_at > maxIdle) with hidle
  set K : List String := (m.filter idle).map Prod.fst with hKdef
  have hKnd : K.Nodup := ((List.filter_sublist m).map Prod.fst).nodup hnd
  have hKmem : ∀ k ∈ K, k ∈ keys m := by
    intro k hk
    rw [hKdef] at hk
    obtain ⟨p, hp, hpk⟩ := List.mem_map.mp hk
    exact hpk ▸ mem_keys_of_mem (List.mem_filter.mp hp).1
  rw [reapIdle, ← hidle, ← hKdef, closeAll_spec q K m 0 hnd hKnd hKmem]
  simp only [Prod.mk.injEq]
  refine ⟨by simp [hKdef], ?_⟩
  · apply List.filter_congr
    intro p hp
    by_cases hc : now - p.2.last_used_at > maxIdle
    · have hpK : p.1 ∈ K := by
        rw [hKdef]
        exact List.mem_map.mpr ⟨p, List.mem_filter.mpr ⟨hp, by simp [hidle, hc]⟩, rfl⟩
      simp [hpK, hc, Int.not_le.mpr hc]
    · have hpK : p.1 ∉ K := by
        rw [hKdef]
        intro hx
        obtain ⟨p', hp', hpk⟩ := List.mem_map.mp hx
        have hp'm := List.mem_filter.mp hp'
        have : p' = p := key_inj_of_nodup hnd hp'm.1 hp hpk
        rw [this] at hp'm
        rw [hidle] at hp'm
        simp only [decide_eq_true_eq] at hp'm
        exact hc hp'm.2
      simp [hpK, hc, Int.not_lt.mp hc]

end ReapLemmas

/-! ## Action layer of `mcp_server_v2.py`

Each MCP tool first resolves the session through `SESSIONS.get` (which
refreshes `last_used_at`), then talks to the driver.  Whether the
bounded CSS wait (`_wait_css`, lines 157-160) finds the element within
`timeout_s` is the oracle `appears`; when it does not,
`WebDriverWait.until` raises `TimeoutException` and no tool in
`mcp_server_v2.py` catches it, so it propagates out of the tool body.
The happy path of the subsequent `find_element`/driver calls is assumed
(the driver is an external collaborator). -/

/-- Observable driver-side page state of a session's browser. -/
structure Browser where
  currentUrl : String
  title : String
deriving DecidableEq, Repr

/-- Payload of `open_page`'s return dict `{"ok": True, "url": url,
"title": s.driver.title}`. -/
structure OpenPageOk where
  url : String
  title : String
deriving DecidableEq, Repr

/-- Payload of `type_text`'s return dict `{"ok": True,
"selector": css_selector, "chars": len(text)}`. -/
structure TypeTextOk where
  selector : String
  chars : Nat
deriving DecidableEq, Repr

/-- Payload of `get_text`'s return dict `{"ok": True,
"selector": css_selector, "text": el.text}`. -/
structure GetTextOk where
  selector : String
  text : String
deriving DecidableEq, Repr

/-- `click` tool (lines 222-228): `get`, `_wait_css`, `find_element`,
`el.click()`, return `{"ok": True, "clicked": css_selector}`.  The
payload is the clicked selector. -/
def mcpClick (m : Registry) (sid css : String) (now : Time)
    (appears : Bool) : PyResult String × Registry :=
  match get m sid now with
  | (.error e, m') => (.raised e, m')
  | (.ok _, m') =>
      if appears then (.ok css, m')
      else (.raised .timeoutException, m')

/-- `type_text` tool (lines 239-253).  `clearFirst` only affects the
external element's state, which the embedding does not track. -/
def mcpTypeText (m : Registry) (sid css text : String)
    (_clearFirst : Bool) (now : Time) (appears : Bool) :
    PyResult TypeTextOk × Registry :=
  match get m sid now with
  | (.error e, m') => (.raised e, m')
  | (.ok _, m') =>
      if appears then (.ok ⟨css, text.length⟩, m')
      else (.raised .timeoutException, m')

/-- `get_text` tool (lines 264-269).  `elText` is the `.text` content of
the located element (driver oracle). -/
def mcpGetText (m : Registry) (sid css : String) (now : Time)
    (appears : Bool) (elText : String) :
    PyResult GetTextOk × Registry :=
  match get m sid now with
  | (.error e, m') => (.raised e, m')
  | (.ok _, m') =>
      if appears then (.ok ⟨css, elText⟩, m')
      else (.raised .timeoutException, m')

/-- `open_page` tool (lines 198-211): `get`, then `s.driver.get(url)`
(navigation happens unconditionally), then — only if `wait_css` was
given — `_wait_css`, which raises `TimeoutException` when the selector
never appears.  `pageTitle` is the title the driver reports for the
loaded page. -/
def openPage (m : Registry) (br : Browser) (sid url : String)
    (waitCss : Option String) (now : Time) (pageTitle : String)
    (appears : Bool) : PyResult OpenPageOk × Registry × Browser :=
  match get m sid now with
  | (.error e, m') => (.raised e, m', br)
  | (.ok _, m') =>
      match waitCss with
      | none => (.ok ⟨url, pageTitle⟩, m', ⟨url, pageTitle⟩)
      | some _ =>
          if appears then (.ok ⟨url, pageTitle⟩, m', ⟨url, pageTitle⟩)
          else (.raised .timeoutException, m', ⟨url, pageTitle⟩)

/-- Return dict of `selenium_tools.selenium_click`: either
`{"ok": True, "url": url, "clicked": selector, "title": ...}` or
`{"ok": False, "error": ..., "url": url}`. -/
structure SelClickResult where
  ok : Bool
  url : String
  error : Option String
  clicked : Option String
  title : Option String
deriving DecidableEq, Repr

/-- `selenium_tools.selenium_click` (lines 72-84): one-shot driver,
navigate, wait for the selector to be clickable; on `TimeoutException`
return a typed non-fatal failure dict naming the selector, otherwise
click and return the success dict. -/
def selenium_click (url selector : String) (clickable : Bool)
    (pageTitle : String) : SelClickResult :=
  if clickable then ⟨true, url, none, some selector, some pageTitle⟩
  else
    ⟨false, url, some ("Timed out waiting for clickable: " ++ selector),
     none, none⟩

/-! ## Lock discipline of `_SessionManager`

Event traces of the registry operations, read off the source: which
driver calls (browser I/O) happen between acquiring and releasing
`self._lock`.  `create` (lines 110-119) runs `self._new_driver()` inside
its `with self._lock:` block; `close` (lines 129-137) pops inside the
block and calls `driver.quit()` after leaving it; `reap_idle`
(lines 139-151) snapshots inside its block and then calls `close` per
id. -/

/-- Events visible in a registry operation: lock transitions and the two
kinds of browser I/O (driver construction, driver quit). -/
inductive Ev
  | acquire
  | release
  | newDriver
  | quitDriver
deriving DecidableEq, Repr

/-- Trace of `create` (lines 110-119): the driver is constructed inside
the `with self._lock:` block. -/
def createTrace : List Ev := [.acquire, .newDriver, .release]

/-- Trace of `close` on a present id (lines 129-137): pop under the
lock, quit after releasing it. -/
def closeHitTrace : List Ev := [.acquire, .release, .quitDriver]

/-- Trace of `close` on an absent id: only the locked pop. -/
def closeMissTrace : List Ev := [.acquire, .release]

/-- Trace of `get` (lines 121-127): lookup and refresh under the lock,
no browser I/O. -/
def getTrace : List Ev := [.acquire, .release]

/-- Trace of `reap_idle` (lines 139-151) when `hits` snapshotted ids get
closed: one locked snapshot section, then one `close` trace per id. -/
def reapTrace (hits : Nat) : List Ev :=
  [Ev.acquire, Ev.release] ++ (List.replicate hits closeHitTrace).flatten

/-- Scan of a trace with the current `RLock` hold depth: `true` iff some
browser I/O event happens while the lock is held. -/
def ioUnderLockAux : Nat → List Ev → Bool
  | _, [] => false
  | d, Ev.acquire :: t => ioUnderLockAux (d + 1) t
  | d, Ev.release :: t => ioUnderLockAux (d - 1) t
  | d, Ev.newDriver :: t => decide (0 < d) || ioUnderLockAux d t
  | d, Ev.quitDriver :: t => decide (0 < d) || ioUnderLockAux d t

/-- Whether an operation's trace performs browser I/O while holding the
registry lock. -/
def ioUnderLock (t : List Ev) : Bool := ioUnderLockAux 0 t

/-! ## Registry histories

A run of the server is a sequence of registry operations; each carries
its external inputs (the uuid draw, the clock reading, the driver
construction outcome).  Actions such as `click` touch the registry only
through `get`, so `getUse` also stands for every action dispatch. -/

/-- One registry operation together with its external inputs. -/
inductive Op
  | createOp (sid : String) (now : Time) (drv : Except String Nat)
  | getUse (sid : String) (now : Time)
  | closeOp (sid : String)
  | reapOp (now : Time) (maxIdle : Time)

/-- Effect of one operation on the registry (quit failures do not affect
the map, so the quit oracle is fixed to the no-error one). -/
def applyOp (m : Registry) : Op → Registry
  | .createOp sid now drv => (create m sid now drv).2
  | .getUse sid now => (get m sid now).2
  | .closeOp sid => (close m sid (fun _ => none)).registry
  | .reapOp now maxIdle => (reapIdle m now maxIdle (fun _ => none)).2

/-- Run a sequence of operations. -/
def runOps (m : Registry) : List Op → Registry
  | [] => m
  | op :: rest => runOps (applyOp m op) rest

/-- The uuid draws of every `create` call in a history (also the ones
whose driver construction failed). -/
def allCreateIds : List Op → List String
  | [] => []
  | .createOp sid _ _ :: rest => sid :: allCreateIds rest
  | _ :: rest => allCreateIds rest

/-- The ids actually returned by the `create` calls that succeeded. -/
def createdIds : List Op → List String
  | [] => []
  | .createOp sid _ (.ok _) :: rest => sid :: createdIds rest
  | .createOp _ _ (.error _) :: rest => createdIds rest
  | _ :: rest => createdIds rest

section HistoryLemmas

theorem mem_dictInsert {m : Registry} {k : String} {v : Session}
    {p : String × Session} (h : p ∈ dictInsert m k v) :
    p = (k, v) ∨ p ∈ m := by
  induction m with
  | nil => simp [dictInsert] at h; simp [h]
  | cons q rest ih =>
    obtain ⟨k', v'⟩ := q
    by_cases hk : k' = k
    · subst hk
      simp only [dictInsert, if_pos rfl] at h
      rcases List.mem_cons.mp h with h1 | h1
      · exact Or.inl h1
      · exact Or.inr (List.mem_cons_of_mem _ h1)
    · simp only [dictInsert, if_neg hk] at h
      rcases List.mem_cons.mp h with h1 | h1
      · exact Or.inr (h1 ▸ List.mem_cons_self _ _)
      · rcases ih h1 with h2 | h2
        · exact Or.inl h2
        · exact Or.inr (List.mem_cons_of_mem _ h2)

theorem mem_of_mem_dictPop {m : Registry} {k : String}
    {p : String × Session} (h : p ∈ (dictPop m k).2) : p ∈ m := by
  induction m with
  | nil => simp [dictPop] at h
  | cons q rest ih =>
    obtain ⟨k', v⟩ := q
    by_cases hk : k' = k
    · subst hk
      simp [dictPop] at h
      exact List.mem_cons_of_mem _ h
    · simp only [dictPop, if_neg hk] at h
      rcases List.mem_cons.mp h with h1 | h1
      · exact h1 ▸ List.mem_cons_self _ _
      · exact List.mem_cons_of_mem _ (ih h1)

theorem mem_of_mem_closeAll (q : Nat → Option PyError) (K : List String) :
    ∀ (acc : Nat × Registry) (p : String × Session),
      p ∈ (closeAll q K acc).2 → p ∈ acc.2 := by
  induction K with
  | nil => intro acc p h; exact h
  | cons k K ih =>
    intro acc p h
    have h1 := ih (if (close acc.2 k q).closed then acc.1 + 1 else acc.1,
                   (close acc.2 k q).registry) p h
    rw [close_registry] at h1
    exact mem_of_mem_dictPop h1

theorem mem_keys_closeAll (q : Nat → Option PyError) (K : List String)
    {acc : Nat × Registry} {x : String}
    (h : x ∈ keys (closeAll q K acc).2) : x ∈ keys acc.2 := by
  obtain ⟨s, hs⟩ := exists_of_mem_keys h
  exact mem_keys_of_mem (mem_of_mem_closeAll q K acc (x, s) hs)

theorem nodup_keys_closeAll (q : Nat → Option PyError) (K : List String) :
    ∀ (acc : Nat × Registry), (keys acc.2).Nodup →
      (keys (closeAll q K acc).2).Nodup := by
  induction K with
  | nil => intro acc h; exact h
  | cons k K ih =>
    intro acc h
    have h1 : (keys (close acc.2 k q).registry).Nodup := by
      rw [close_registry]
      exact nodup_keys_dictPop k h
    exact ih (if (close acc.2 k q).closed then acc.1 + 1 else acc.1,
              (close acc.2 k q).registry) h1

theorem nodup_keys_applyOp {m : Registry} (op : Op)
    (hnd : (keys m).Nodup) : (keys (applyOp m op)).Nodup := by
  cases op with
  | createOp sid now drv =>
    cases drv with
    | error msg => exact hnd
    | ok d => exact nodup_keys_dictInsert sid _ hnd
  | getUse sid now => rw [applyOp, keys_get_snd]; exact hnd
  | closeOp sid =>
    rw [applyOp, close_registry]
    exact nodup_keys_dictPop sid hnd
  | reapOp now maxIdle => exact nodup_keys_closeAll _ _ _ hnd

theorem nodup_keys_runOps {m : Registry} (ops : List Op)
    (hnd : (keys m).Nodup) : (keys (runOps m ops)).Nodup := by
  induction ops generalizing m with
  | nil => exact hnd
  | cons op rest ih => exact ih (nodup_keys_applyOp op hnd)

theorem mem_keys_applyOp {m : Registry} {op : Op} {x : String}
    (h : x ∈ keys (applyOp m op)) :
    x ∈ keys m ∨ x ∈ allCreateIds [op] := by
  cases op with
  | createOp sid now drv =>
    cases drv with
    | error msg => exact Or.inl h
    | ok d =>
      rcases mem_keys_dictInsert h with h1 | h1
      · exact Or.inr (by simp [allCreateIds, h1])
      · exact Or.inl h1
  | getUse sid now =>
    rw [applyOp, keys_get_snd] at h
    exact Or.inl h
  | closeOp sid =>
    rw [applyOp, close_registry] at h
    exact Or.inl (mem_keys_dictPop h)
  | reapOp now maxIdle => exact Or.inl (mem_keys_closeAll _ _ h)

theorem allCreateIds_cons (op : Op) (rest : List Op) :
    allCreateIds (op :: rest) =
      allCreateIds [op] ++ allCreateIds rest := by
  cases op <;> simp [allCreateIds]

theorem mem_keys_runOps {m : Registry} {x : String} (ops : List Op)
    (h : x ∈ keys (runOps m ops)) :
    x ∈ keys m ∨ x ∈ allCreateIds ops := by
  induction ops generalizing m with
  | nil => exact Or.inl h
  | cons op rest ih =>
    rcases ih (m := applyOp m op) h with h1 | h1
    · rcases mem_keys_applyOp h1 with h2 | h2
      · exact Or.inl h2
      · exact Or.inr (by rw [allCreateIds_cons]; exact List.mem_append_left _ h2)
    · exact Or.inr (by rw [allCreateIds_cons]; exact List.mem_append_right _ h1)

theorem not_mem_keys_runOps {m : Registry} {x : String} (ops : List Op)
    (hx : x ∉ keys m) (hop : x ∉ allCreateIds ops) :
    x ∉ keys (runOps m ops) := by
  intro h
  rcases mem_keys_runOps ops h with h1 | h1
  · exact hx h1
  · exact hop h1

end HistoryLemmas

section TimingLemmas

/-- The data-model invariant: every session satisfies
`last_used_at >= created_at`. -/
def SessionsWF (m : Registry) : Prop :=
  ∀ p ∈ m, p.2.created_at ≤ p.2.last_used_at

/-- All creation timestamps in the registry are at most `t`. -/
def CreatedBefore (m : Registry) (t : Time) : Prop :=
  ∀ p ∈ m, p.2.created_at ≤ t

/-- The clock readings of a history never go backwards, starting from a
lower bound `lo` (`time.time()` read monotonically). -/
def opsTimed : Time → List Op → Prop
  | _, [] => True
  | lo, .createOp _ now _ :: rest => lo ≤ now ∧ opsTimed now rest
  | lo, .getUse _ now :: rest => lo ≤ now ∧ opsTimed now rest
  | lo, .closeOp _ :: rest => opsTimed lo rest
  | lo, .reapOp now _ :: rest => lo ≤ now ∧ opsTimed now rest

theorem wf_createOp {m : Registry} {lo now : Time} (sid : String)
    (drv : Except String Nat) (hwf : SessionsWF m) (hcb : CreatedBefore m lo)
    (hle : lo ≤ now) :
    SessionsWF (applyOp m (.createOp sid now drv)) ∧
      CreatedBefore (applyOp m (.createOp sid now drv)) now := by
  cases drv with
  | error msg =>
    exact ⟨hwf, fun p hp => le_trans (hcb p hp) hle⟩
  | ok d =>
    constructor
    · intro p hp
      rcases mem_dictInsert hp with h1 | h1
      · rw [h1]
      · exact hwf p h1
    · intro p hp
      rcases mem_dictInsert hp with h1 | h1
      · rw [h1]
      · exact le_trans (hcb p h1) hle

theorem wf_getUse {m : Registry} {lo now : Time} (sid : String)
    (hwf : SessionsWF m) (hcb : CreatedBefore m lo) (hle : lo ≤ now) :
    SessionsWF (applyOp m (.getUse sid now)) ∧
      CreatedBefore (applyOp m (.getUse sid now)) now := by
  rw [applyOp, get]
  cases h : dictLookup m sid with
  | none =>
    exact ⟨hwf, fun p hp => le_trans (hcb p hp) hle⟩
  | some s =>
    have hsm : (sid, s) ∈ m := mem_of_dictLookup h
    constructor
    · intro p hp
      rcases mem_dictInsert hp with h1 | h1
      · rw [h1]
        exact le_trans (hcb (sid, s) hsm) hle
      · exact hwf p h1
    · intro p hp
      rcases mem_dictInsert hp with h1 | h1
      · rw [h1]
        exact le_trans (hcb (sid, s) hsm) hle
      · exact le_trans (hcb p h1) hle

theorem wf_closeOp {m : Registry} {lo : Time} (sid : String)
    (hwf : SessionsWF m) (hcb : CreatedBefore m lo) :
    SessionsWF (applyOp m (.closeOp sid)) ∧
      CreatedBefore (applyOp m (.closeOp sid)) lo := by
  constructor
  · intro p hp
    rw [applyOp, close_registry] at hp
    exact hwf p (mem_of_mem_dictPop hp)
  · intro p hp
    rw [applyOp, close_registry] at hp
    exact hcb p (mem_of_mem_dictPop hp)

theorem wf_reapOp {m : Registry} {lo now maxIdle : Time}
    (hwf : SessionsWF m) (hcb : CreatedBefore m lo) (hle : lo ≤ now) :
    SessionsWF (applyOp m (.reapOp now maxIdle)) ∧
      CreatedBefore (applyOp m (.reapOp now maxIdle)) now := by
  constructor
  · intro p hp
    exact hwf p (mem_of_mem_closeAll _ _ _ p hp)
  · intro p hp
    exact le_trans (hcb p (mem_of_mem_closeAll _ _ _ p hp)) hle

theorem wf_runOps (ops : List Op) :
    ∀ (m : Registry) (lo : Time), SessionsWF m → CreatedBefore m lo →
      opsTimed lo ops → SessionsWF (runOps m ops) := by
  induction ops with
  | nil => intro m lo hwf _ _; exact hwf
  | cons op rest ih =>
    intro m lo hwf hcb ht
    cases op with
    | createOp sid now drv =>
      obtain ⟨hle, ht'⟩ := ht
      obtain ⟨hwf', hcb'⟩ := wf_createOp sid drv hwf hcb hle
      exact ih _ now hwf' hcb' ht'
    | getUse sid now =>
      obtain ⟨hle, ht'⟩ := ht
      obtain ⟨hwf', hcb'⟩ := wf_getUse sid hwf hcb hle
      exact ih _ now hwf' hcb' ht'
    | closeOp sid =>
      obtain ⟨hwf', hcb'⟩ := wf_closeOp sid hwf hcb
      exact ih _ lo hwf' hcb' ht
    | reapOp now maxIdle =>
      obtain ⟨hle, ht'⟩ := ht
      obtain ⟨hwf', hcb'⟩ := wf_reapOp hwf hcb hle
      exact ih _ now hwf' hcb' ht'

/-- `get` never touches `created_at` or the handle: any session visible
after a `get` step was already there with the same `created_at` and
`driver`. -/
theorem createdAt_preserved_get {m : Registry} {sid x : String}
    {now : Time} {s' : Session}
    (h : dictLookup (get m sid now).2 x = some s') :
    ∃ s, dictLookup m x = some s ∧ s'.created_at = s.created_at ∧
      s'.driver = s.driver := by
  cases hl : dictLookup m sid with
  | none =>
    rw [get, hl] at h
    exact ⟨s', h, rfl, rfl⟩
  | some s0 =>
    rw [get, hl] at h
    by_cases hx : x = sid
    · subst hx
      rw [dictLookup_dictInsert_self] at h
      have hs' : s' = { s0 with last_used_at := now } := by
        injection h with h
        exact h.symm
      exact ⟨s0, hl, by rw [hs'], by rw [hs']⟩
    · rw [dictLookup_dictInsert_ne _ _ hx] at h
      exact ⟨s', h, rfl, rfl⟩

/-- `close` never touches surviving sessions' fields. -/
theorem createdAt_preserved_close {m : Registry} {sid x : String}
    {q : Nat → Option PyError} {s' : Session}
    (hnd : (keys m).Nodup)
    (h : dictLookup (close m sid q).registry x = some s') :
    dictLookup m x = some s' := by
  rw [close_registry, dictPop_snd_of_nodup sid hnd] at h
  have hmem := List.mem_filter.mp (mem_of_dictLookup h)
  exact dictLookup_of_mem_nodup hnd hmem.1

/-- `reap_idle` never touches surviving sessions' fields. -/
theorem createdAt_preserved_reap {m : Registry} {x : String}
    {now maxIdle : Time} {q : Nat → Option PyError} {s' : Session}
    (hnd : (keys m).Nodup)
    (h : dictLookup (reapIdle m now maxIdle q).2 x = some s') :
    dictLookup m x = some s' := by
  rw [reapIdle_spec m now maxIdle q hnd] at h
  have hmem := List.mem_filter.mp (mem_of_dictLookup h)
  exact dictLookup_of_mem_nodup hnd hmem.1

end TimingLemmas

theorem ioUnderLock_reapTrace (hits : Nat) :
    ioUnderLock (reapTrace hits) = false := by
  have haux : ∀ n, ioUnderLockAux 0 ((List.replicate n closeHitTrace).flatten) = false := by
    intro n
    induction n with
    | zero => rfl
    | succ n ih => simpa [List.replicate_succ, closeHitTrace, ioUnderLockAux] using ih
  simpa [ioUnderLock, reapTrace, ioUnderLockAux] using haux hits

section SublistLemmas

theorem createdIds_sublist (ops : List Op) :
    (createdIds ops).Sublist (allCreateIds ops) := by
  induction ops with
  | nil => simp [createdIds, allCreateIds]
  | cons op rest ih =>
    cases op with
    | createOp sid now drv =>
      cases drv with
      | ok d =>
        simpa [createdIds, allCreateIds] using ih.cons₂ sid
      | error msg =>
        simpa [createdIds, allCreateIds] using ih.cons sid
    | getUse sid now => simpa [createdIds, allCreateIds] using ih
    | closeOp sid => simpa [createdIds, allCreateIds] using ih
    | reapOp now maxIdle => simpa [createdIds, allCreateIds] using ih

theorem allCreateIds_append (l1 l2 : List Op) :
    allCreateIds (l1 ++ l2) = allCreateIds l1 ++ allCreateIds l2 := by
  induction l1 with
  | nil => rfl
  | cons op rest ih => cases op <;> simp [allCreateIds, ih]

end SublistLemmas

/-! ## The claims -/

/-- C1: for an id present in the registry, `get` returns that session
with `last_used_at` refreshed to the current clock reading, and the
refresh happens in the same atomic registry step as the lookup (one
critical section); for an absent id, `get` fails with the `NotFound`
error (`KeyError`) and leaves the registry unchanged.  Consequently a
`get` at time `t1` followed by `reap_idle` at time `t2` with a threshold
`T` larger than the elapsed `t2 - t1` leaves the session in the
registry. -/
theorem claim_C1_get_refresh (m : Registry) (sid : String) (t1 : Time)
    (hnd : (keys m).Nodup) :
    (dictLookup m sid = none →
      get m sid t1 =
        (.error (.keyError ("Unknown session_id: " ++ sid)), m)) ∧
    (∀ s, dictLookup m sid = some s →
      (get m sid t1).1 = .ok { s with last_used_at := t1 } ∧
      dictLookup (get m sid t1).2 sid = some { s with last_used_at := t1 } ∧
      ∀ (t2 T : Time) (q : Nat → Option PyError), t2 - t1 < T →
        dictLookup (reapIdle (get m sid t1).2 t2 T q).2 sid =
          some { s with last_used_at := t1 }) := by
  constructor
  · intro h
    exact get_of_absent t1 h
  · intro s h
    rw [get_of_present t1 h]
    refine ⟨rfl, dictLookup_dictInsert_self .., ?_⟩
    intro t2 T q hT
    have hnd' :
        (keys (dictInsert m sid { s with last_used_at := t1 })).Nodup :=
      nodup_keys_dictInsert _ _ hnd
    rw [reapIdle_spec _ t2 T q hnd']
    apply dictLookup_filter_of_keep hnd' (dictLookup_dictInsert_self ..)
    show decide (t2 - t1 ≤ T) = true
    simp only [decide_eq_true_eq]
    exact le_of_lt hT

/-- C1 witness: a registry with one session created at time 0, `get` at
time 10, reap at time 12 with threshold 5 (larger than the elapsed 2 but
smaller than the 12 units since creation): the session survives with its
refreshed timestamp. -/
theorem claim_C1_witness :
    dictLookup (reapIdle (get [("a", Session.mk 1 0 0)] "a" 10).2 12 5
      (fun _ => none)).2 "a" = some (Session.mk 1 0 10) :=
  (((claim_C1_get_refresh [("a", Session.mk 1 0 0)] "a" 10 (by decide)).2
      (Session.mk 1 0 0) rfl).2.2) 12 5 (fun _ => none) (by decide)

/-- C2: `reap_idle T` at clock reading `now` removes exactly the
sessions with `now - last_used_at` strictly greater than `T`, keeps
every other entry unchanged (same session value, same position), and
returns the number of sessions closed. -/
theorem claim_C2_reap_exact (m : Registry) (now T : Time)
    (q : Nat → Option PyError) (hnd : (keys m).Nodup) :
    (reapIdle m now T q).2 =
      m.filter (fun p => decide (now - p.2.last_used_at ≤ T)) ∧
    (reapIdle m now T q).1 =
      (m.filter (fun p => decide (now - p.2.last_used_at > T))).length ∧
    (∀ sid s, dictLookup m sid = some s → now - s.last_used_at ≤ T →
      dictLookup (reapIdle m now T q).2 sid = some s) ∧
    (∀ sid s, dictLookup m sid = some s → now - s.last_used_at > T →
      dictLookup (reapIdle m now T q).2 sid = none) := by
  rw [reapIdle_spec m now T q hnd]
  refine ⟨rfl, rfl, ?_, ?_⟩
  · intro sid s h hle
    exact dictLookup_filter_of_keep hnd h (by simpa using hle)
  · intro sid s h hgt
    apply dictLookup_filter_of_drop hnd h
    show decide (now - s.last_used_at ≤ T) = false
    simp only [decide_eq_false_iff_not]
    exact not_le.mpr hgt

/-- C2 witness: three sessions, two idle past the threshold: reap closes
exactly those two and keeps the third untouched. -/
theorem claim_C2_witness :
    (reapIdle [("a", Session.mk 1 0 0), ("b", Session.mk 2 0 50),
        ("c", Session.mk 3 0 0)] 100 60 (fun _ => none)).1 = 2 ∧
    (reapIdle [("a", Session.mk 1 0 0), ("b", Session.mk 2 0 50),
        ("c", Session.mk 3 0 0)] 100 60 (fun _ => none)).2 =
      [("b", Session.mk 2 0 50)] := by
  have h := claim_C2_reap_exact
    [("a", Session.mk 1 0 0), ("b", Session.mk 2 0 50),
     ("c", Session.mk 3 0 0)] 100 60 (fun _ => none) (by decide)
  refine ⟨?_, ?_⟩
  · rw [h.2.1]
    decide
  · rw [h.1]
    decide

/-- C3 counterexample: closing the one-session registry whose driver
`quit` raises does remove the entry and return `True`, but nothing is
raised or logged — the failure disappears into the `finally: return
True`, refuting the claim's "release failure reported rather than
silently swallowed" clause. -/
theorem claim_C3_counterexample :
    (close [("s", Session.mk 7 0 0)] "s"
      (fun _ => some (.webDriverException "quit failed"))).closed = true ∧
    ¬ ∃ e, (close [("s", Session.mk 7 0 0)] "s"
      (fun _ => some (.webDriverException "quit failed"))).raisedOrLogged
        = some e := by
  refine ⟨by decide, ?_⟩
  rintro ⟨e, he⟩
  rw [close_report] at he
  exact Option.noConfusion he

/-- C3 amended: `close` never fails; it removes the map entry exactly
when a session was present and returns whether one was; a nonexistent or
already-closed id yields `False` with the registry untouched; the entry
is removed and `True` returned even when releasing the handle raises —
but the release failure is silently discarded by the `return True`
inside `finally`, not reported. -/
theorem claim_C3_close_semantics (m : Registry) (sid : String)
    (q : Nat → Option PyError) (hnd : (keys m).Nodup) :
    ((close m sid q).closed = true ↔ sid ∈ keys m) ∧
    dictLookup (close m sid q).registry sid = none ∧
    (∀ s, dictLookup m sid = some s → ∀ e, q s.driver = some e →
      (close m sid q).closed = true) ∧
    (close m sid q).raisedOrLogged = none ∧
    (sid ∉ keys m →
      (close m sid q).closed = false ∧ (close m sid q).registry = m) := by
  refine ⟨?_, ?_, ?_, close_report m sid q, ?_⟩
  · rw [close_closed]
    cases hl : dictLookup m sid with
    | none =>
      simp [(dictLookup_eq_none_iff m sid).mp hl]
    | some s =>
      simp [mem_keys_of_dictLookup hl]
  · cases hl : dictLookup m sid with
    | none =>
      rw [close_registry, dictPop_snd_of_absent hl]
      exact hl
    | some s =>
      rw [close_registry, dictPop_snd_of_nodup sid hnd]
      exact dictLookup_filter_of_drop hnd hl (by simp)
  · intro s hl e _
    rw [close_closed, hl]
    rfl
  · intro hmem
    have hl : dictLookup m sid = none := (dictLookup_eq_none_iff m sid).mpr hmem
    constructor
    · rw [close_closed, hl]
      rfl
    · rw [close_registry, dictPop_snd_of_absent hl]

/-- C3 witness: closing with a raising `quit` on a concrete registry:
the entry is gone afterwards. -/
theorem claim_C3_witness :
    dictLookup (close [("s", Session.mk 7 0 0)] "s"
      (fun _ => some (.webDriverException "boom"))).registry "s" = none :=
  (claim_C3_close_semantics [("s", Session.mk 7 0 0)] "s"
    (fun _ => some (.webDriverException "boom")) (by decide)).2.1

/-- C4 counterexample: `click` on an existing session whose wait expires
does not return a typed `Timeout` result carrying the selector — the
`TimeoutException` (a selector-less exception) propagates out of the
tool unhandled. -/
theorem claim_C4_counterexample :
    (mcpClick [("s", Session.mk 7 0 0)] "s" "#missing" 5 false).1 =
      .raised .timeoutException ∧
    ¬ ∃ payload,
      (mcpClick [("s", Session.mk 7 0 0)] "s" "#missing" 5 false).1 =
        .ok payload := by
  refine ⟨by decide, ?_⟩
  rintro ⟨payload, hp⟩
  rw [show (mcpClick [("s", Session.mk 7 0 0)] "s" "#missing" 5 false).1 =
      .raised .timeoutException by decide] at hp
  exact PyResult.noConfusion hp

/-- C4 amended: in the session-based server, when the bounded wait of
`click` / `type_text` / `get_text` on an existing session expires the
tool raises the driver's `TimeoutException` (propagated unhandled, not
converted into a typed result carrying the selector), while the session
stays in the registry with `last_used_at` refreshed and remains usable
(a subsequent `get` succeeds); the standalone
`selenium_tools.selenium_click`, by contrast, does return a typed
non-fatal failure dict naming the selector. -/
theorem claim_C4_timeout_behavior (m : Registry) (sid css text url : String)
    (s : Session) (now : Time) (h : dictLookup m sid = some s) :
    (mcpClick m sid css now false).1 = .raised .timeoutException ∧
    (mcpTypeText m sid css text true now false).1 =
      .raised .timeoutException ∧
    (mcpGetText m sid css now false "").1 = .raised .timeoutException ∧
    dictLookup (mcpClick m sid css now false).2 sid =
      some { s with last_used_at := now } ∧
    (get (mcpClick m sid css now false).2 sid now).1 =
      .ok { s with last_used_at := now } ∧
    selenium_click url css false "" =
      ⟨false, url, some ("Timed out waiting for clickable: " ++ css),
       none, none⟩ := by
  have hg := get_of_present now h
  refine ⟨?_, ?_, ?_, ?_, ?_, rfl⟩
  · simp [mcpClick, hg]
  · simp [mcpTypeText, hg]
  · simp [mcpGetText, hg]
  · simp only [mcpClick, hg]
    exact dictLookup_dictInsert_self ..
  · have h5 : (mcpClick m sid css now false).2 =
        dictInsert m sid { s with last_used_at := now } := by
      simp [mcpClick, hg]
    rw [h5, get_of_present now (dictLookup_dictInsert_self m sid
      { s with last_used_at := now })]

/-- C4 witness: a timed-out `type_text` on a live session raises
`TimeoutException`. -/
theorem claim_C4_witness :
    (mcpTypeText [("a", Session.mk 1 2 3)] "a" "#q" "hello" true 9
      false).1 = .raised .timeoutException :=
  (claim_C4_timeout_behavior [("a", Session.mk 1 2 3)] "a" "#q" "hello"
    "u" (Session.mk 1 2 3) 9 rfl).2.1

/-- C5 counterexample: the claim that no registry operation performs
browser I/O under the lock fails on `create`, whose driver construction
happens at lock depth 1. -/
theorem claim_C5_counterexample :
    ¬ (ioUnderLock createTrace = false ∧
       ∀ hits, ioUnderLock (reapTrace hits) = false) := by
  rintro ⟨h, _⟩
  exact absurd h (by decide)

/-- C5 amended: `reap_idle` takes its snapshot under the lock and
performs every driver close outside it (as does `close` itself: pop
inside, quit outside), and `get` does no browser I/O at all — but
`create` constructs the browser handle while holding the registry
lock. -/
theorem claim_C5_lock_discipline (hits : Nat) :
    ioUnderLock (reapTrace hits) = false ∧
    ioUnderLock closeHitTrace = false ∧
    ioUnderLock closeMissTrace = false ∧
    ioUnderLock getTrace = false ∧
    ioUnderLock createTrace = true :=
  ⟨ioUnderLock_reapTrace hits, by decide, by decide, by decide, by decide⟩

/-- C6 counterexample: when driver construction fails, `create` raises
the raw `WebDriverException`, not a typed `ResourceExhausted` or
`BackendUnavailable` error — no such mapping exists in the code. -/
theorem claim_C6_counterexample :
    ¬ ((create [] "sid-1" 0 (.error "chrome failed to start")).1 =
        .error .resourceExhausted ∨
       (create [] "sid-1" 0 (.error "chrome failed to start")).1 =
        .error .backendUnavailable) := by
  rintro (h | h) <;> simp [create] at h

/-- C6 amended: if browser-handle construction fails during `create`,
the raw driver exception propagates unchanged (no typed error), no
entry is inserted, and the registry map is exactly as it was before the
call. -/
theorem claim_C6_create_failure (m : Registry) (sid : String) (now : Time)
    (msg : String) :
    (create m sid now (.error msg)).1 = .error (.webDriverException msg) ∧
    (create m sid now (.error msg)).2 = m :=
  ⟨rfl, rfl⟩

/-- C7: closing is a one-way transition: once `close sid` has returned
`True`, provided no later `create` draws the same uuid (the draws of the
subsequent history avoid `sid`), the id never reappears in the registry:
every later `get sid` fails with `KeyError` and a second `close sid`
returns `False`. -/
theorem claim_C7_close_one_way (m : Registry) (sid : String)
    (q q2 : Nat → Option PyError) (ops : List Op) (t : Time)
    (hnd : (keys m).Nodup) (hfresh : sid ∉ allCreateIds ops) :
    (close m sid q).closed = true →
      sid ∉ keys (close m sid q).registry ∧
      dictLookup (runOps (close m sid q).registry ops) sid = none ∧
      (get (runOps (close m sid q).registry ops) sid t).1 =
        .error (.keyError ("Unknown session_id: " ++ sid)) ∧
      (close (runOps (close m sid q).registry ops) sid q2).closed =
        false := by
  intro _hc
  have h1 : sid ∉ keys (close m sid q).registry := by
    rw [close_registry, dictPop_snd_of_nodup sid hnd]
    intro hx
    obtain ⟨s, hs⟩ := exists_of_mem_keys hx
    have h2 := (List.mem_filter.mp hs).2
    simp at h2
  have h2 : sid ∉ keys (runOps (close m sid q).registry ops) :=
    not_mem_keys_runOps ops h1 hfresh
  have h3 : dictLookup (runOps (close m sid q).registry ops) sid = none :=
    (dictLookup_eq_none_iff _ _).mpr h2
  refine ⟨h1, h3, ?_, ?_⟩
  · rw [get_of_absent t h3]
  · rw [close_closed, h3]
    rfl

/-- C7 witness: close a session, run a later create with a different
uuid, then close the first id again: `False`. -/
theorem claim_C7_witness :
    (close (runOps (close [("a", Session.mk 1 0 0)] "a"
        (fun _ => none)).registry [Op.createOp "b" 5 (.ok 2)]) "a"
      (fun _ => none)).closed = false :=
  ((claim_C7_close_one_way [("a", Session.mk 1 0 0)] "a" (fun _ => none)
    (fun _ => none) [Op.createOp "b" 5 (.ok 2)] 9 (by decide) (by decide)
    (by decide)).2.2.2)

/-- C8: under a monotone clock, every registry reachable by a history of
operations keeps `last_used_at >= created_at` for all sessions, and no
`get`, `close` or `reap_idle` step changes a surviving session's
`created_at` (nor its handle) — only `create` writes it, once. -/
theorem claim_C8_timestamps (m : Registry) (lo : Time) (ops : List Op)
    (hwf : SessionsWF m) (hcb : CreatedBefore m lo)
    (ht : opsTimed lo ops) :
    SessionsWF (runOps m ops) ∧
    (∀ sid now x s', dictLookup (get m sid now).2 x = some s' →
      ∃ s, dictLookup m x = some s ∧ s'.created_at = s.created_at ∧
        s'.driver = s.driver) ∧
    ((keys m).Nodup → ∀ sid q x s',
      dictLookup (close m sid q).registry x = some s' →
      dictLookup m x = some s') ∧
    ((keys m).Nodup → ∀ now maxIdle q x s',
      dictLookup (reapIdle m now maxIdle q).2 x = some s' →
      dictLookup m x = some s') := by
  refine ⟨wf_runOps ops m lo hwf hcb ht, ?_, ?_, ?_⟩
  · intro sid now x s' h
    exact createdAt_preserved_get h
  · intro hnd sid q x s' h
    exact createdAt_preserved_close hnd h
  · intro hnd now maxIdle q x s' h
    exact createdAt_preserved_reap hnd h

/-- C8 witness: a one-session registry run through a `get` and a reap
with increasing clock readings keeps the invariant. -/
theorem claim_C8_witness :
    SessionsWF (runOps [("a", Session.mk 1 0 0)]
      [Op.getUse "a" 4, Op.reapOp 6 10]) :=
  (claim_C8_timestamps [("a", Session.mk 1 0 0)] 0
    [Op.getUse "a" 4, Op.reapOp 6 10]
    (fun p hp => by rw [List.mem_singleton.mp hp])
    (fun p hp => by rw [List.mem_singleton.mp hp])
    ⟨by norm_num, by norm_num, trivial⟩).1

/-- C9: with the uuid draws of a history pairwise distinct and avoiding
the initial registry's keys (the uuid4 contract, modelled as a fresh id
source), the ids returned by the `create` calls are pairwise distinct,
each `create` draws an id not currently live in the registry at its
point in the history, and the map's keys stay duplicate-free. -/
theorem claim_C9_fresh_ids (m : Registry) (ops : List Op)
    (hnd : (keys m).Nodup) (hids : (allCreateIds ops).Nodup)
    (hdisj : ∀ x ∈ allCreateIds ops, x ∉ keys m) :
    (createdIds ops).Nodup ∧
    (keys (runOps m ops)).Nodup ∧
    ∀ pre sid now drv post,
      ops = pre ++ Op.createOp sid now drv :: post →
      sid ∉ keys (runOps m pre) := by
  refine ⟨(createdIds_sublist ops).nodup hids, nodup_keys_runOps ops hnd, ?_⟩
  intro pre sid now drv post hsplit
  subst hsplit
  rw [allCreateIds_append] at hids hdisj
  obtain ⟨-, -, hdj⟩ := List.nodup_append.mp hids
  have hsidr : sid ∈ allCreateIds (Op.createOp sid now drv :: post) := by
    simp [allCreateIds]
  have hpre : sid ∉ allCreateIds pre := fun hc => hdj hc hsidr
  have hm : sid ∉ keys m :=
    hdisj sid (List.mem_append_right _ hsidr)
  exact not_mem_keys_runOps pre hm hpre

/-- C9 witness: two creates with distinct uuid draws on an empty
registry leave duplicate-free keys. -/
theorem claim_C9_witness :
    (keys (runOps []
      [Op.createOp "a" 0 (.ok 1), Op.createOp "b" 1 (.ok 2)])).Nodup :=
  (claim_C9_fresh_ids []
    [Op.createOp "a" 0 (.ok 1), Op.createOp "b" 1 (.ok 2)]
    (by decide) (by decide) (by decide)).2.1

/-- C10: `open_page` navigates before waiting: on an existing session
with a `wait_css` whose wait times out, the tool raises
`TimeoutException`, yet the session's browser has already loaded the new
url — the failure is not atomic, the current page changed even though
`open_page` reports a failure. -/
theorem claim_C10_navigate_before_wait (m : Registry) (br : Browser)
    (sid url css title : String) (now : Time) (s : Session)
    (h : dictLookup m sid = some s) (hurl : br.currentUrl ≠ url) :
    (openPage m br sid url (some css) now title false).1 =
      .raised .timeoutException ∧
    (openPage m br sid url (some css) now title false).2.2.currentUrl =
      url ∧
    (openPage m br sid url (some css) now title false).2.2.currentUrl ≠
      br.currentUrl := by
  have hg := get_of_present now h
  have hop : openPage m br sid url (some css) now title false =
      (.raised .timeoutException,
       dictInsert m sid { s with last_used_at := now },
       ⟨url, title⟩) := by
    simp [openPage, hg]
  rw [hop]
  exact ⟨rfl, rfl, fun he => hurl he.symm⟩

/-- C10 witness: a concrete timed-out `open_page` leaves the browser on
the newly loaded url. -/
theorem claim_C10_witness :
    (openPage [("a", Session.mk 1 0 0)] ⟨"about:blank", ""⟩ "a"
      "https://x.test" (some "#main") 3 "T" false).2.2.currentUrl =
      "https://x.test" :=
  (claim_C10_navigate_before_wait [("a", Session.mk 1 0 0)]
    ⟨"about:blank", ""⟩ "a" "https://x.test" "#main" "T" 3
    (Session.mk 1 0 0) rfl (by decide)).2.1

end SeleniumMcp
